import Mathlib

/-!
Shallow embedding of the `ws-frame` crate (WebSocket frame header decoder):
`src/iter.rs` (the `Bytes` cursor) and `src/lib.rs` (`Status`, `Opcode`,
`Head`, `Frame`, `first_bit`, `Frame::decode`).

Bytes of the input buffer are modelled as `Nat` (values of a `u8` are
`< 256`; the bit extractions below are written exactly as in the source and
agree with the `u8` semantics on such values). Buffer positions and lengths
are `Nat` (Rust `usize`; overflow of `pos + count` is unreachable for real
slices, and `Nat` has no wrap-around).

A Rust panic is modelled explicitly: `read_u64` returns `none` where the
`byteorder` crate's length assertion fails, and `decode` propagates that as
`DecodeOut.panicked` (distinct from a normal `Status` return).
-/

namespace WsFrame

/-- Embeds Rust `slice.get(start..stop)` on a byte slice: `Some` of the
sub-slice iff `start <= stop && stop <= len`, `None` otherwise. -/
def sliceGet (s : List Nat) (start stop : Nat) : Option (List Nat) :=
  if start ≤ stop ∧ stop ≤ s.length then some ((s.drop start).take (stop - start))
  else none

/-- `Bytes` from `src/iter.rs`: a borrowed byte slice plus a read position.
The Rust method `pos()` is the projection `Bytes.pos`. -/
structure Bytes where
  slice : List Nat
  pos : Nat
deriving DecidableEq

/-- `Bytes::new` from `src/iter.rs`. -/
def Bytes.new (slice : List Nat) : Bytes :=
  { slice := slice, pos := 0 }

/-- `Iterator::next` for `Bytes` from `src/iter.rs`: if `slice.len() > pos`,
return the byte at `pos` and advance by one; otherwise `None` (position
unchanged). State is threaded explicitly: the second component is the
cursor after the call. -/
def Bytes.next (b : Bytes) : Option Nat × Bytes :=
  if h : b.slice.length > b.pos then
    (some (b.slice.get ⟨b.pos, h⟩), { b with pos := b.pos + 1 })
  else
    (none, b)

/-- `Bytes::slice_to` from `src/iter.rs`: `let start = self.pos;
self.pos += end; self.slice.get(start..self.pos)`. The position advances by
`count` regardless of success (the Rust parameter is named `end`). -/
def Bytes.slice_to (b : Bytes) (count : Nat) : Option (List Nat) × Bytes :=
  let start := b.pos
  let stop := b.pos + count
  (sliceGet b.slice start stop, { b with pos := stop })

/-- `Status` from `src/lib.rs`. -/
inductive Status where
  | Complete (n : Nat)
  | Partial
deriving DecidableEq

/-- The observable outcome of a `decode` call: a normal return of a
`Status`, or a Rust panic raised inside the call (see `read_u64`). -/
inductive DecodeOut where
  | ret (s : Status)
  | panicked
deriving DecidableEq

/-- `Opcode` from `src/lib.rs`. -/
inductive Opcode where
  | Continue
  | Text
  | Binary
  | Close
  | Ping
  | Pong
  | Reserved
deriving DecidableEq

/-- `impl From<u8> for Opcode` from `src/lib.rs` (`from` is a Lean keyword,
hence the name `fromU8`). -/
def Opcode.fromU8 (opcode : Nat) : Opcode :=
  match opcode with
  | 0 => Opcode.Continue
  | 1 => Opcode.Text
  | 2 => Opcode.Binary
  | 8 => Opcode.Close
  | 9 => Opcode.Ping
  | 10 => Opcode.Pong
  | _ => Opcode.Reserved

/-- `Head` from `src/lib.rs`. `rsv` is the three-element array `[bool; 3]`. -/
structure Head where
  op : Opcode
  finished : Bool
  rsv : List Bool
deriving DecidableEq

/-- `Frame` from `src/lib.rs` (the `payload_len` variant). -/
structure Frame where
  head : Option Head
  mask : Option (List Nat)
  payload_len : Option Nat
deriving DecidableEq

/-- `Frame::empty` from `src/lib.rs`. -/
def Frame.empty : Frame :=
  { head := none, mask := none, payload_len := none }

/-- `first_bit` from `src/lib.rs`: `byte >> 7 == 1u8`. -/
def first_bit (byte : Nat) : Bool :=
  byte >>> 7 == 1

/-- `byteorder::BigEndian::read_u64`: interprets the FIRST 8 bytes of the
slice as a big-endian unsigned integer. The crate asserts
`8 <= buf.len()` and PANICS otherwise; the panic is modelled as `none`. -/
def read_u64 (buf : List Nat) : Option Nat :=
  if 8 ≤ buf.length then some ((buf.take 8).foldl (fun acc b => acc * 256 + b) 0)
  else none

/-- The `rsv` array computed by the loop in `Frame::decode`
(`rsv[2 - i] = rsv_bits >> i & 0x1u8 == 1u8` for `i in 0..3`), unrolled:
entry 0 holds bit 2 of `rsv_bits`, entry 1 bit 1, entry 2 bit 0. -/
def rsvOf (rsv_bits : Nat) : List Bool :=
  [((rsv_bits >>> 2) &&& 0x1) == 1, ((rsv_bits >>> 1) &&& 0x1) == 1,
   ((rsv_bits >>> 0) &&& 0x1) == 1]

/-- The tail of `Frame::decode` (`src/lib.rs` lines 185-191), reached after
`self.payload_len` has been assigned: if `first_bit(second)`, read 4 mask
bytes (aborting with Partial when they are missing), then return
`Complete(bytes.pos())`. `copy_from_slice` cannot fail here: both sides
have length 4. -/
def maskAndFinish (self : Frame) (second : Nat) (bytes : Bytes) :
    Frame × DecodeOut :=
  if first_bit second then
    match Bytes.slice_to bytes 4 with
    | (none, _) => (self, DecodeOut.ret Status.Partial)
    | (some s, bytes1) =>
      ({ self with mask := some s }, DecodeOut.ret (Status.Complete bytes1.pos))
  else
    (self, DecodeOut.ret (Status.Complete bytes.pos))

/-- `Frame::decode` from `src/lib.rs`. State-passing translation: the
mutable `self` is threaded and the final `Frame` is returned together with
the outcome. `unwrap!` on a missing byte/slice is the early
`Status::Partial` return; `read_u64` applied (via `Option.map`) to a slice
shorter than 8 bytes is a panic, surfaced as `DecodeOut.panicked`. -/
def decode (self : Frame) (buf : List Nat) : Frame × DecodeOut :=
  let bytes := Bytes.new buf
  match Bytes.next bytes with
  | (none, _) => (self, DecodeOut.ret Status.Partial)
  | (some first, bytes1) =>
    let rsv_bits := (first >>> 4) &&& 0x7
    let self1 : Frame :=
      { self with
        head := some
          { op := Opcode.fromU8 (first &&& 0xF)
            finished := first_bit first
            rsv := rsvOf rsv_bits } }
    match Bytes.next bytes1 with
    | (none, _) => (self1, DecodeOut.ret Status.Partial)
    | (some second, bytes2) =>
      let code := second &&& 0x7F
      if code = 126 then
        match Bytes.slice_to bytes2 4 with
        | (none, _) => (self1, DecodeOut.ret Status.Partial)
        | (some s, bytes3) =>
          match read_u64 s with
          | none => (self1, DecodeOut.panicked)
          | some v =>
            maskAndFinish { self1 with payload_len := some v } second bytes3
      else if code = 127 then
        match Bytes.slice_to bytes2 8 with
        | (none, _) => (self1, DecodeOut.ret Status.Partial)
        | (some s, bytes3) =>
          match read_u64 s with
          | none => (self1, DecodeOut.panicked)
          | some v =>
            maskAndFinish { self1 with payload_len := some v } second bytes3
      else
        maskAndFinish { self1 with payload_len := some code } second bytes2

/-! ### Evaluation lemmas for the cursor and the decoder -/

theorem slice_to_eval (l : List Nat) (p c : Nat) :
    Bytes.slice_to ⟨l, p⟩ c =
      (if p + c ≤ l.length then some ((l.drop p).take c) else none,
       ⟨l, p + c⟩) := by
  simp only [Bytes.slice_to, sliceGet]
  have h1 : p ≤ p + c := Nat.le_add_right p c
  have h2 : p + c - p = c := by omega
  simp [h1, h2]

theorem next_eval (l : List Nat) (p : Nat) :
    Bytes.next ⟨l, p⟩ =
      if h : p < l.length then (some (l.get ⟨p, h⟩), ⟨l, p + 1⟩)
      else (none, ⟨l, p⟩) := by
  simp [Bytes.next]

/-- Closed-form evaluation of `decode` on a buffer holding at least the two
header bytes, by cases on the base length code, the mask bit, and the
number of available trailing bytes. -/
theorem decode_cons_cons (f : Frame) (b0 b1 : Nat) (rest : List Nat) :
    decode f (b0 :: b1 :: rest) =
      (let f1 : Frame := { f with head := some ⟨Opcode.fromU8 (b0 &&& 0xF), first_bit b0, rsvOf ((b0 >>> 4) &&& 0x7)⟩ }
       let code := b1 &&& 0x7F
       if code = 126 then
         if 4 ≤ rest.length then (f1, DecodeOut.panicked)
         else (f1, DecodeOut.ret Status.Partial)
       else
         let ext := if code = 127 then 8 else 0
         if rest.length < ext then (f1, DecodeOut.ret Status.Partial)
         else
           let plen : Nat :=
             if code = 127 then (rest.take 8).foldl (fun acc b => acc * 256 + b) 0
             else code
           let f2 : Frame := { f1 with payload_len := some plen }
           if first_bit b1 then
             if ext + 4 ≤ rest.length then
               ({ f2 with mask := some ((rest.drop ext).take 4) },
                DecodeOut.ret (Status.Complete (2 + ext + 4)))
             else (f2, DecodeOut.ret Status.Partial)
           else (f2, DecodeOut.ret (Status.Complete (2 + ext)))) := by
  have hn0 : Bytes.next ⟨b0 :: b1 :: rest, 0⟩ = (some b0, ⟨b0 :: b1 :: rest, 1⟩) := by
    simp [Bytes.next]
  have hn1 : Bytes.next ⟨b0 :: b1 :: rest, 1⟩ = (some b1, ⟨b0 :: b1 :: rest, 2⟩) := by
    simp [Bytes.next]
  simp only [decode, Bytes.new, hn0, hn1]
  by_cases h126 : b1 &&& 0x7F = 126
  · simp only [h126, if_pos rfl, slice_to_eval]
    by_cases h4 : 4 ≤ rest.length
    · have : 2 + 4 ≤ (b0 :: b1 :: rest).length := by simp; omega
      simp only [if_pos this]
      have hlen : ((((b0 : Nat) :: b1 :: rest).drop 2).take 4).length = 4 := by
        simp; omega
      simp [read_u64, hlen, if_pos h4]
    · have : ¬ (2 + 4 ≤ (b0 :: b1 :: rest).length) := by simp; omega
      simp [this, if_neg h4]
  · simp only [if_neg h126]
    by_cases h127 : b1 &&& 0x7F = 127
    · simp only [h127, if_pos rfl, slice_to_eval]
      by_cases h8 : 8 ≤ rest.length
      · have hone : 2 + 8 ≤ (b0 :: b1 :: rest).length := by simp; omega
        simp only [if_pos hone]
        have hdt : (((b0 : Nat) :: b1 :: rest).drop 2).take 8 = rest.take 8 := by
          simp
        have hlen : (rest.take 8).length = 8 := by simp; omega
        have hru : read_u64 (rest.take 8) =
            some ((rest.take 8).foldl (fun acc b => acc * 256 + b) 0) := by
          simp [read_u64, hlen, List.take_take]
        simp only [hdt, hru]
        have hnl : ¬ (rest.length < 8) := by omega
        simp only [if_neg hnl, maskAndFinish, slice_to_eval]
        by_cases hm : first_bit b1
        · simp only [hm, if_pos rfl]
          by_cases h12 : 8 + 4 ≤ rest.length
          · have : 2 + 8 + 4 ≤ (b0 :: b1 :: rest).length := by simp; omega
            simp [this, if_pos h12, List.drop_drop, hnl]
          · have : ¬ (2 + 8 + 4 ≤ (b0 :: b1 :: rest).length) := by simp; omega
            simp [this, if_neg h12, hnl]
        · simp [hm, hnl]
      · have hone : ¬ (2 + 8 ≤ (b0 :: b1 :: rest).length) := by simp; omega
        have hnl : rest.length < 8 := by omega
        simp [hone, hnl, h8]
    · simp only [if_neg h127]
      have hnl : ¬ (rest.length < 0) := by omega
      simp only [if_neg hnl, maskAndFinish, slice_to_eval]
      by_cases hm : first_bit b1
      · simp only [hm, if_pos rfl]
        by_cases h4 : 0 + 4 ≤ rest.length
        · have : 2 + 4 ≤ (b0 :: b1 :: rest).length := by simp; omega
          simp [this, if_pos h4]
        · have : ¬ (2 + 4 ≤ (b0 :: b1 :: rest).length) := by simp; omega
          simp [this, if_neg h4]
      · simp [hm]

theorem decode_nil (f : Frame) : decode f [] = (f, DecodeOut.ret Status.Partial) := by
  simp [decode, Bytes.new, Bytes.next]

theorem decode_single (f : Frame) (b0 : Nat) :
    decode f [b0] =
      ({ f with head := some ⟨Opcode.fromU8 (b0 &&& 0xF), first_bit b0, rsvOf ((b0 >>> 4) &&& 0x7)⟩ },
       DecodeOut.ret Status.Partial) := by
  simp [decode, Bytes.new, Bytes.next]

/-- The outcome of `decode` on a two-byte-headed buffer, as a function of
the base length code, the mask bit and the available byte count only (the
outcome never depends on the incoming `Frame`). -/
theorem decode_status (f : Frame) (b0 b1 : Nat) (rest : List Nat) :
    (decode f (b0 :: b1 :: rest)).2 =
      (if b1 &&& 0x7F = 126 then
         if 4 ≤ rest.length then DecodeOut.panicked
         else DecodeOut.ret Status.Partial
       else if b1 &&& 0x7F = 127 then
         if rest.length < 8 then DecodeOut.ret Status.Partial
         else if first_bit b1 then
           if 12 ≤ rest.length then DecodeOut.ret (Status.Complete 14)
           else DecodeOut.ret Status.Partial
         else DecodeOut.ret (Status.Complete 10)
       else if first_bit b1 then
         if 4 ≤ rest.length then DecodeOut.ret (Status.Complete 6)
         else DecodeOut.ret Status.Partial
       else DecodeOut.ret (Status.Complete 2)) := by
  rw [decode_cons_cons]
  dsimp only
  split_ifs <;> first | rfl | omega

/-! ### Claim theorems -/

/-- C7: the opcode-from-nibble mapping is a total function over all 16
values of the low 4 bits of header byte 1: 0 maps to Continue(ation), 1 to
Text, 2 to Binary, 8 to Close, 9 to Ping, 10 to Pong, and every other
value (3-7 and 11-15) maps to Reserved rather than failing. -/
theorem C7_opcode_total :
    Opcode.fromU8 0 = Opcode.Continue ∧ Opcode.fromU8 1 = Opcode.Text ∧
    Opcode.fromU8 2 = Opcode.Binary ∧ Opcode.fromU8 8 = Opcode.Close ∧
    Opcode.fromU8 9 = Opcode.Ping ∧ Opcode.fromU8 10 = Opcode.Pong ∧
    (∀ n : Nat, n < 16 → n ≠ 0 → n ≠ 1 → n ≠ 2 → n ≠ 8 → n ≠ 9 → n ≠ 10 →
      Opcode.fromU8 n = Opcode.Reserved) := by
  refine ⟨rfl, rfl, rfl, rfl, rfl, rfl, ?_⟩
  intro n hn h0 h1 h2 h8 h9 h10
  interval_cases n <;> simp_all <;> rfl

theorem C7_opcode_total_witness : Opcode.fromU8 11 = Opcode.Reserved :=
  C7_opcode_total.2.2.2.2.2.2 11 (by decide) (by decide) (by decide)
    (by decide) (by decide) (by decide) (by decide)

/-- C8: for every non-empty buffer whose first byte is `0b10100010`, after
`decode` the frame's head is `Some` with `finished = true`,
`rsv = [false, true, false]` and opcode `Binary`. -/
theorem C8_head_of_first_byte (rest : List Nat) :
    (decode Frame.empty (0b10100010 :: rest)).1.head =
      some ⟨Opcode.Binary, true, [false, true, false]⟩ := by
  cases rest with
  | nil => rfl
  | cons b1 rest1 =>
    rw [decode_cons_cons]
    dsimp only
    split_ifs <;> rfl

/-- C1: the code-126 extended-length path evaluated on a buffer carrying
the boundary value 65535: `slice_to(4)` succeeds with a 4-byte slice, but
`byteorder`'s `read_u64` asserts `8 <= len`, so the call panics instead of
returning normally, and `payload_len` is never written. -/
theorem C1_code126_aborts :
    (decode Frame.empty [0x82, 126, 0, 0, 0xFF, 0xFF]).2 = DecodeOut.panicked ∧
    (decode Frame.empty [0x82, 126, 0, 0, 0xFF, 0xFF]).1.payload_len = none := by
  decide

/-- C2 counterexample: the claimed result `Complete(2 + L)` fails on the
concrete 5-byte fixture (L = 3): decode stops after the two header bytes
and returns `Complete 2`, not `Complete 5`. -/
theorem C2_counterexample :
    (decode Frame.empty [0b10100010, 0b00000011, 0b00000001, 0b00000010, 0b00000011]).2 =
      DecodeOut.ret (Status.Complete 2) ∧
    DecodeOut.ret (Status.Complete 2) ≠ DecodeOut.ret (Status.Complete 5) := by
  decide

/-- C2 (amended): for every valid single-byte-length (base length code
L ≤ 125), unmasked frame buffer containing the full frame, and any 4-bit
opcode value, decode returns `Complete 2` — the two header bytes only,
payload bytes are not consumed. -/
theorem C2_unmasked_short_complete (b0 b1 : Nat) (rest : List Nat)
    (hcode : b1 &&& 0x7F ≤ 125) (hmask : first_bit b1 = false)
    (hlen : rest.length = b1 &&& 0x7F) :
    (decode Frame.empty (b0 :: b1 :: rest)).2 = DecodeOut.ret (Status.Complete 2) := by
  have h126 : ¬ (b1 &&& 0x7F = 126) := by omega
  have h127 : ¬ (b1 &&& 0x7F = 127) := by omega
  rw [decode_status]
  simp [h126, h127, hmask]

theorem C2_unmasked_short_complete_witness :
    (decode Frame.empty [0b10100010, 0b00000011, 0b00000001, 0b00000010, 0b00000011]).2 =
      DecodeOut.ret (Status.Complete 2) :=
  C2_unmasked_short_complete 0b10100010 0b00000011 [0b00000001, 0b00000010, 0b00000011]
    (by decide) (by decide) (by decide)

/-- C10: whenever decode returns `Complete n`, `n` counts only header
bytes — 2 for the two header bytes, plus the extended-length bytes
consumed (8 for code 127; the code-126 path never completes), plus 4 if
the mask bit is set — and never any payload bytes; in particular for an
unmasked frame with base length code ≤ 125, `n = 2` regardless of the
code. -/
theorem C10_complete_counts_header (f : Frame) (b0 b1 : Nat) (rest : List Nat)
    (n : Nat)
    (h : (decode f (b0 :: b1 :: rest)).2 = DecodeOut.ret (Status.Complete n)) :
    n = 2 + (if b1 &&& 0x7F = 127 then 8 else 0) + (if first_bit b1 then 4 else 0) ∧
    (b1 &&& 0x7F ≤ 125 → first_bit b1 = false → n = 2) := by
  rw [decode_status] at h
  split_ifs at h <;> simp_all

theorem C10_complete_counts_header_witness :
    (2 : Nat) = 2 + (if 3 &&& 0x7F = 127 then 8 else 0) + (if first_bit 3 then 4 else 0) ∧
    (3 &&& 0x7F ≤ 125 → first_bit 3 = false → (2 : Nat) = 2) :=
  C10_complete_counts_header Frame.empty 0b10100010 3 [1, 2, 3] 2 (by decide)

/-- C3 counterexample: the 5-byte fixture decodes to `Complete 2` in full;
its strict prefix of length 4 (shorter than the 5-byte full frame, payload
included) does NOT decode to Partial — it also decodes to `Complete 2`. -/
theorem C3_counterexample :
    (decode Frame.empty [0b10100010, 0b00000011, 0b00000001, 0b00000010, 0b00000011]).2 =
      DecodeOut.ret (Status.Complete 2) ∧
    (decode Frame.empty ([0b10100010, 0b00000011, 0b00000001, 0b00000010, 0b00000011].take 4)).2 ≠
      DecodeOut.ret Status.Partial := by
  decide

/-- C3 (amended): for every byte sequence that decodes to `Complete n`
when given in full, decoding any prefix of length strictly shorter than
`n` — the consumed byte count, rather than the full buffer length —
returns Partial. -/
theorem C3_truncation (buf : List Nat) (n k : Nat)
    (h : (decode Frame.empty buf).2 = DecodeOut.ret (Status.Complete n))
    (hk : k < n) :
    (decode Frame.empty (buf.take k)).2 = DecodeOut.ret Status.Partial := by
  cases buf with
  | nil =>
    rw [decode_nil] at h
    exact absurd h (by simp)
  | cons b0 t =>
    cases t with
    | nil =>
      rw [decode_single] at h
      exact absurd h (by simp)
    | cons b1 rest =>
      rw [decode_status] at h
      cases k with
      | zero =>
        show (decode Frame.empty []).2 = _
        rw [decode_nil]
      | succ k1 =>
        cases k1 with
        | zero =>
          show (decode Frame.empty [b0]).2 = _
          rw [decode_single]
        | succ k2 =>
          have ht : (b0 :: b1 :: rest).take (k2 + 1 + 1) = b0 :: b1 :: rest.take k2 := rfl
          rw [ht, decode_status]
          by_cases h126 : b1 &&& 0x7F = 126
          · rw [if_pos h126] at h
            split at h <;> exact absurd h (by simp)
          · rw [if_neg h126] at h ⊢
            by_cases h127 : b1 &&& 0x7F = 127
            · rw [if_pos h127] at h ⊢
              by_cases h8 : rest.length < 8
              · rw [if_pos h8] at h
                exact absurd h (by simp)
              · rw [if_neg h8] at h
                by_cases hm : first_bit b1
                · rw [if_pos hm] at h
                  by_cases h12 : 12 ≤ rest.length
                  · rw [if_pos h12] at h
                    simp only [DecodeOut.ret.injEq, Status.Complete.injEq] at h
                    have hlen : (rest.take k2).length = k2 := by simp; omega
                    rw [hlen]
                    by_cases hk8 : k2 < 8
                    · rw [if_pos hk8]
                    · rw [if_neg hk8, if_pos hm, if_neg (by omega : ¬ 12 ≤ k2)]
                  · rw [if_neg h12] at h
                    exact absurd h (by simp)
                · rw [if_neg hm] at h
                  simp only [DecodeOut.ret.injEq, Status.Complete.injEq] at h
                  have hlen : (rest.take k2).length = k2 := by simp; omega
                  rw [hlen, if_pos (by omega : k2 < 8)]
            · rw [if_neg h127] at h ⊢
              by_cases hm : first_bit b1
              · rw [if_pos hm] at h ⊢
                by_cases h4 : 4 ≤ rest.length
                · rw [if_pos h4] at h
                  simp only [DecodeOut.ret.injEq, Status.Complete.injEq] at h
                  have hlen : (rest.take k2).length = k2 := by simp; omega
                  rw [hlen, if_neg (by omega : ¬ 4 ≤ k2)]
                · rw [if_neg h4] at h
                  exact absurd h (by simp)
              · rw [if_neg hm] at h
                simp only [DecodeOut.ret.injEq, Status.Complete.injEq] at h
                omega

theorem C3_truncation_witness :
    (decode Frame.empty ([130, 129, 1, 2, 3, 4].take 3)).2 = DecodeOut.ret Status.Partial :=
  C3_truncation [130, 129, 1, 2, 3, 4] 6 3 (by decide) (by decide)

/-- C4 counterexample: after decoding a complete unmasked frame from an
empty `Frame`, `payload_len` (claimed to come last, after `mask`) is
`Some` while `mask` (claimed to come before it) is still `None`. -/
theorem C4_counterexample :
    (decode Frame.empty [0b10100010, 0b00000001]).1.payload_len = some 1 ∧
    (decode Frame.empty [0b10100010, 0b00000001]).1.mask = none := by
  decide

/-- C4 (amended): starting from an empty `Frame`, after any single decode
call the fields are populated strictly in the order the decoder writes
them — head before payload_len, payload_len before mask — so no later
field in that order is ever `Some` while an earlier one is still `None`. -/
theorem C4_field_order (buf : List Nat) :
    ((decode Frame.empty buf).1.mask.isSome → (decode Frame.empty buf).1.payload_len.isSome) ∧
    ((decode Frame.empty buf).1.payload_len.isSome → (decode Frame.empty buf).1.head.isSome) := by
  cases buf with
  | nil => rw [decode_nil]; simp [Frame.empty]
  | cons b0 t =>
    cases t with
    | nil => rw [decode_single]; simp [Frame.empty]
    | cons b1 rest =>
      rw [decode_cons_cons]
      dsimp only
      split_ifs <;> simp [Frame.empty]

theorem C4_field_order_witness :
    (decode Frame.empty [130, 129, 1, 2, 3, 4]).1.payload_len.isSome :=
  (C4_field_order [130, 129, 1, 2, 3, 4]).1 (by decide)

/-- C5: whenever decode returns Partial, every field holds exactly its
decoded value or exactly its entry value — nothing is reset to `None` or
overwritten with a default. Precisely: `mask` (which an aborted call never
reaches) is unchanged; `head` is unchanged when the buffer is empty and
otherwise holds exactly the head decoded from byte 0; `payload_len` is
unchanged when the abort came at or before the length read (fewer than two
bytes, base code 126 short of its 4 extended bytes, or base code 127 short
of its 8) and otherwise holds exactly the decoded length value. -/
theorem C5_partial_preserves_fields (f : Frame) (buf : List Nat)
    (h : (decode f buf).2 = DecodeOut.ret Status.Partial) :
    (decode f buf).1.mask = f.mask ∧
    ((buf = [] ∧ (decode f buf).1 = f) ∨
     (∃ b0, buf = [b0] ∧
       (decode f buf).1.head =
         some ⟨Opcode.fromU8 (b0 &&& 0xF), first_bit b0, rsvOf ((b0 >>> 4) &&& 0x7)⟩ ∧
       (decode f buf).1.payload_len = f.payload_len) ∨
     (∃ b0 b1 rest, buf = b0 :: b1 :: rest ∧
       (decode f buf).1.head =
         some ⟨Opcode.fromU8 (b0 &&& 0xF), first_bit b0, rsvOf ((b0 >>> 4) &&& 0x7)⟩ ∧
       (decode f buf).1.payload_len =
         (if b1 &&& 0x7F = 126 ∨ (b1 &&& 0x7F = 127 ∧ rest.length < 8) then f.payload_len
          else some (if b1 &&& 0x7F = 127 then
                       (rest.take 8).foldl (fun acc b => acc * 256 + b) 0
                     else b1 &&& 0x7F)))) := by
  cases buf with
  | nil =>
    rw [decode_nil]
    exact ⟨rfl, Or.inl ⟨rfl, rfl⟩⟩
  | cons b0 t =>
    cases t with
    | nil =>
      rw [decode_single]
      exact ⟨rfl, Or.inr (Or.inl ⟨b0, rfl, rfl, rfl⟩)⟩
    | cons b1 rest =>
      refine ⟨?_, Or.inr (Or.inr ⟨b0, b1, rest, rfl, ?_, ?_⟩)⟩ <;>
        (rw [decode_cons_cons] at h ⊢; dsimp only at h ⊢;
         split_ifs at h ⊢ <;> simp_all <;> omega)

theorem C5_partial_preserves_fields_witness :
    (decode { head := some ⟨Opcode.Ping, true, [false, false, false]⟩, mask := some [9, 9, 9, 9], payload_len := some 7 } [130, 129, 1]).1.mask = some [9, 9, 9, 9] :=
  (C5_partial_preserves_fields _ [130, 129, 1] (by decide)).1

/-- C6: for every decode on an initially-empty `Frame` that reaches the
mask phase (the length field fully decoded, which excludes the panicking
code-126 path): if the mask bit of header byte 2 is set and at least 4
bytes remain after the length field, `mask` is set to exactly those 4
bytes; if the mask bit is clear, `mask` remains `None` after the call. -/
theorem C6_mask_extraction (b0 b1 : Nat) (rest : List Nat) :
    (first_bit b1 = true → b1 &&& 0x7F ≠ 126 →
      (if b1 &&& 0x7F = 127 then 8 else 0) + 4 ≤ rest.length →
      (decode Frame.empty (b0 :: b1 :: rest)).1.mask =
        some ((rest.drop (if b1 &&& 0x7F = 127 then 8 else 0)).take 4)) ∧
    (first_bit b1 = false → (decode Frame.empty (b0 :: b1 :: rest)).1.mask = none) := by
  constructor
  · intro hm h126 hlen
    rw [decode_cons_cons]
    dsimp only
    by_cases h127 : b1 &&& 0x7F = 127
    · rw [if_pos h127] at hlen
      rw [if_neg h126, if_pos h127, if_neg (by omega : ¬ rest.length < 8), if_pos hm,
        if_pos (by omega : 8 + 4 ≤ rest.length), if_pos h127]
    · rw [if_neg h127] at hlen
      rw [if_neg h126, if_neg h127, if_neg (by omega : ¬ rest.length < 0), if_pos hm,
        if_pos (by omega : 0 + 4 ≤ rest.length), if_neg h127]
  · intro hm
    rw [decode_cons_cons]
    dsimp only
    split_ifs <;> simp_all [Frame.empty]

theorem C6_mask_extraction_witness :
    (decode Frame.empty [130, 129, 7, 8, 9, 10]).1.mask = some [7, 8, 9, 10] :=
  (C6_mask_extraction 130 129 [7, 8, 9, 10]).1 (by decide) (by decide) (by decide)

/-- C9: for every cursor state with position p over a slice of length
`s.length` and every count c: `slice_to c` advances the position to p + c
regardless of success or failure, returns `Some` of the sub-slice
[p, p + c) when p + c ≤ s.length, and returns `None` when fewer than c
bytes remain. -/
theorem C9_slice_to_spec (s : List Nat) (p c : Nat) :
    (Bytes.slice_to ⟨s, p⟩ c).2 = ⟨s, p + c⟩ ∧
    (p + c ≤ s.length →
      ∃ sub, (Bytes.slice_to ⟨s, p⟩ c).1 = some sub ∧ sub.length = c ∧
        ∀ i, i < c → sub[i]? = s[p + i]?) ∧
    (s.length < p + c → (Bytes.slice_to ⟨s, p⟩ c).1 = none) := by
  rw [slice_to_eval]
  refine ⟨rfl, ?_, ?_⟩
  · intro hle
    rw [if_pos hle]
    refine ⟨(s.drop p).take c, rfl, by simp; omega, ?_⟩
    intro i hi
    rw [List.getElem?_take, if_pos hi, List.getElem?_drop]
  · intro hgt
    rw [if_neg (by omega : ¬ p + c ≤ s.length)]

theorem C9_slice_to_spec_witness :
    (Bytes.slice_to ⟨[5, 6, 7, 8], 1⟩ 2).2 = ⟨[5, 6, 7, 8], 3⟩ ∧
    (Bytes.slice_to ⟨[5, 6, 7, 8], 3⟩ 2).1 = none :=
  ⟨(C9_slice_to_spec [5, 6, 7, 8] 1 2).1,
   (C9_slice_to_spec [5, 6, 7, 8] 3 2).2.2 (by decide)⟩

end WsFrame
